import Mathlib

/-!
Verification development for the DFW dashboard spatial-statistics core.

The Python sources are shallowly embedded: pandas DataFrames become lists of
records, machine floats become exact rationals (ℚ), calendar months become
integers counting months from an epoch (a value m stands for the first day of
month m), and code paths that raise or produce NaN are modelled with Option
(none marks the raising/NaN outcome).  Each definition mirrors one function of
the repository, statement by statement.
-/

namespace DfwDash

section
/- Batteries marks the rational-number operations irreducible, which blocks
kernel evaluation of concrete stores; restore the default reducibility so
that concrete runs of the embedded functions can be checked by `decide`. -/
set_option allowUnsafeReducibility true
attribute [local semireducible] Rat.add Rat.mul Rat.inv Rat.sub

/-- A mesh anchor point: (latitude, longitude) as exact rationals. -/
abbrev Point := ℚ × ℚ

/-- One row of the persisted stats table (`crime_stats.csv`):
columns latitude, longitude, month, risk_score, crime_count, violent_count,
property_count, other_count (`crime_stats_db.py` lines 81-90). -/
structure StatRow where
  latitude : ℚ
  longitude : ℚ
  month : Int
  risk_score : ℚ
  crime_count : ℚ
  violent_count : ℚ
  property_count : ℚ
  other_count : ℚ
  deriving DecidableEq

/-- The CrimeStatsDB state: the anchor-point mesh and the stats table. -/
structure Store where
  anchor_points : List Point
  stats : List StatRow
  deriving DecidableEq

/-- One incoming crime observation (a row of the `crime_data` DataFrame):
latitude, longitude, its calendar month (the result of
`dt.to_period('M')` on date_of_occurrence), and the raw NIBRS category. -/
structure Obs where
  latitude : ℚ
  longitude : ℚ
  month : Int
  nibrs_crime_category : String
  deriving DecidableEq

/-- The small constant 1e-10 added to squared distances
(`crime_stats_db.py` line 162, `crime_spatial.py` lines 74, 106, 131). -/
def eps : ℚ := 1 / 10 ^ 10

/-- Squared Euclidean distance in degrees between two points
(what `scipy.spatial.distance.cdist` returns, squared). -/
def dist2 (a b : Point) : ℚ := (a.1 - b.1) ^ 2 + (a.2 - b.2) ^ 2

/-- Inverse-square-distance weight `1 / (distance**2 + 1e-10)`. -/
def invWeight (d2 : ℚ) : ℚ := 1 / (d2 + eps)

/-- The three-way crime category. -/
inductive Cat where
  | violent
  | property
  | other
  deriving DecidableEq

/-- The category mapping of `crime_stats_db.py` lines 122-126. -/
def categorize (x : String) : Cat :=
  if x = "ASSAULT" ∨ x = "HOMICIDE" ∨ x = "ROBBERY" then Cat.violent
  else if x = "THEFT" ∨ x = "BURGLARY" ∨ x = "AUTO THEFT" then Cat.property
  else Cat.other

/-- `series.max()` on a list of months: none on an empty series
(pandas yields NaT there, which poisons the rest of `update_stats`). -/
def listMax : List Int → Option Int
  | [] => none
  | x :: xs => some (xs.foldl max x)

/-- `series.min()` for rationals. -/
def listMinQ : List ℚ → Option ℚ
  | [] => none
  | x :: xs => some (xs.foldl min x)

/-- `series.max()` for rationals. -/
def listMaxQ : List ℚ → Option ℚ
  | [] => none
  | x :: xs => some (xs.foldl max x)

/-- `pd.date_range(lo, hi, freq='MS')` over month numbers: the months
lo, lo+1, ..., hi (empty when hi < lo). -/
def monthRange (lo hi : Int) : List Int :=
  (List.range (hi - lo + 1).toNat).map (fun (i : Nat) => lo + (i : Int))

/-- A zeroed stats row for one anchor and month
(`crime_stats_db.py` lines 139-148). -/
def zeroRow (a : Point) (m : Int) : StatRow :=
  { latitude := a.1, longitude := a.2, month := m,
    risk_score := 0, crime_count := 0, violent_count := 0,
    property_count := 0, other_count := 0 }

/-- Worker for `uniqueFirst`: keeps the values already emitted in `seen`. -/
def uniqueFromAux {α : Type} [DecidableEq α] (seen : List α) :
    List α → List α
  | [] => []
  | x :: xs =>
    if x ∈ seen then uniqueFromAux seen xs
    else x :: uniqueFromAux (x :: seen) xs

/-- `series.unique()`: distinct values in order of first appearance. -/
def uniqueFirst {α : Type} [DecidableEq α] (l : List α) : List α :=
  uniqueFromAux [] l

/-- The inner per-anchor overwrite pass of `update_stats` for one month
(`crime_stats_db.py` lines 157-184): every stats row for month m whose
coordinates are an anchor point gets its four count fields overwritten with
the inverse-square-distance weighted sums over that month's crimes. -/
def setMonthCounts (anchors : List Point) (month_crimes : List Obs)
    (m : Int) (stats : List StatRow) : List StatRow :=
  stats.map (fun r =>
    if r.month = m ∧ (r.latitude, r.longitude) ∈ anchors then
      let w := fun (o : Obs) =>
        invWeight (dist2 (r.latitude, r.longitude) (o.latitude, o.longitude))
      { r with
        crime_count := (month_crimes.map w).sum
        violent_count := ((month_crimes.filter
          (fun o => decide (categorize o.nibrs_crime_category = Cat.violent))).map w).sum
        property_count := ((month_crimes.filter
          (fun o => decide (categorize o.nibrs_crime_category = Cat.property))).map w).sum
        other_count := ((month_crimes.filter
          (fun o => decide (categorize o.nibrs_crime_category = Cat.other))).map w).sum }
    else r)

/-- The per-month min-max renormalization of `update_stats`
(`crime_stats_db.py` lines 186-194): risk_score is rewritten for month m only
when that month's crime counts show variation (max > min); otherwise the
rows are left untouched. -/
def normalizeMonth (m : Int) (stats : List StatRow) : List StatRow :=
  let counts := (stats.filter (fun r => decide (r.month = m))).map
    (fun r => r.crime_count)
  match listMinQ counts, listMaxQ counts with
  | some lo, some hi =>
    if lo < hi then
      stats.map (fun r =>
        if r.month = m then
          { r with risk_score := (r.crime_count - lo) / (hi - lo) }
        else r)
    else stats
  | _, _ => stats

/-- `CrimeStatsDB.update_stats` (`crime_stats_db.py` lines 100-201):
(1) take latest_month = max month of the batch and the window lower bound
latest minus 11 months; (2) drop batch rows older than the lower bound
(line 119); (3) filter the stats table with the predicate written at lines
129-132 (keep rows with month < lower or month > latest); (4) append fresh
zeroed rows for every anchor for every month of the window (lines 134-150);
(5) overwrite each batch month's counts per anchor (lines 152-184);
(6) renormalize risk_score per batch month (lines 186-194). -/
def update_stats_core (db : Store) (crime_data : List Obs)
    (latest_month : Int) : Store :=
  let twelve_months_ago := latest_month - 11
    let cd := crime_data.filter (fun o => decide (twelve_months_ago ≤ o.month))
    let kept := db.stats.filter
      (fun r => decide (r.month < twelve_months_ago ∨ latest_month < r.month))
    let months := monthRange twelve_months_ago latest_month
    let new_records :=
      (db.anchor_points.map (fun a => months.map (fun mo => zeroRow a mo))).flatten
    let stats1 := kept ++ new_records
    let ums := uniqueFirst (cd.map (fun o => o.month))
    let stats2 := ums.foldl
      (fun acc mo =>
        setMonthCounts db.anchor_points
          (cd.filter (fun o => decide (o.month = mo))) mo acc)
      stats1
    let stats3 := ums.foldl (fun acc mo => normalizeMonth mo acc) stats2
    { db with stats := stats3 }

/-- The distinct months present in a store's stats table
(`stats_df['month'].unique()`). -/
def storeMonths (s : Store) : List Int :=
  uniqueFirst (s.stats.map (fun r => r.month))

/-- `CrimeStatsDB.update_stats` proper: latest_month is the batch maximum,
and after the core pass the source asserts the table holds at most 12
distinct months (`crime_stats_db.py` lines 196-198).  none embeds the two
raising paths: an empty batch, where `max()` yields NaT and the subsequent
`pd.date_range` raises, and a table of more than 12 distinct months, where
the line-198 `assert month_count <= 12` raises AssertionError. -/
def update_stats (db : Store) (crime_data : List Obs) : Option Store :=
  (listMax (crime_data.map (fun o => o.month))).bind (fun latest_month =>
    let updated := update_stats_core db crime_data latest_month
    if (storeMonths updated).length ≤ 12 then some updated else none)

/-! ## Spatial scorer (crime_spatial.py) -/

/-- The state of a constructed CrimeSpatialAnalyzer: its anchor mesh and the
precomputed per-anchor base scores. -/
structure Analyzer where
  anchor_points : List Point
  anchor_scores : List ℚ

/-- The raw summed anchor weights of `_update_anchor_scores`
(`crime_spatial.py` lines 60-80): for each anchor, the sum over all
observations of time-weight times inverse-square-distance weight.  The time
weight exp(-days_ago/365) is transcendental, so it enters as an abstract
per-observation factor. -/
def rawAnchorScores (anchors : List Point) (data : List Obs)
    (timeWeight : Obs → ℚ) : List ℚ :=
  anchors.map (fun a =>
    (data.map (fun o =>
      invWeight (dist2 a (o.latitude, o.longitude)) * timeWeight o)).sum)

/-- `_update_anchor_scores` (`crime_spatial.py` lines 51-84): raw summed
weights followed by the min-max normalization of lines 82-84, which has no
guard against a zero divisor.  The result is none exactly where NumPy
produces NaN anchor scores: when max = min the normalization is 0/0 for
every anchor (and on an empty score array `min()` raises). -/
def update_anchor_scores (anchors : List Point) (data : List Obs)
    (timeWeight : Obs → ℚ) : Option (List ℚ) :=
  let raw := rawAnchorScores anchors data timeWeight
  match listMinQ raw, listMaxQ raw with
  | some lo, some hi =>
    if lo < hi then some (raw.map (fun s => (s - lo) / (hi - lo))) else none
  | _, _ => none

/-- `CrimeSpatialAnalyzer.get_score` (`crime_spatial.py` lines 86-112):
inverse-square-distance weights to every anchor, normalized to sum 1, dotted
with the anchor scores. -/
def get_score (A : Analyzer) (lat lon : ℚ) : ℚ :=
  let point : Point := (lat, lon)
  let weights := A.anchor_points.map (fun a => invWeight (dist2 point a))
  let normalized := weights.map (fun w => w / weights.sum)
  (List.zipWith (fun w s => w * s) normalized A.anchor_scores).sum

/-- `CrimeSpatialAnalyzer.get_scores_batch` (`crime_spatial.py` lines
114-137): the row-wise vectorized form of the same computation. -/
def get_scores_batch (A : Analyzer) (points : List Point) : List ℚ :=
  points.map (fun p =>
    let weights := A.anchor_points.map (fun a => invWeight (dist2 p a))
    let normalized := weights.map (fun w => w / weights.sum)
    (List.zipWith (fun w s => w * s) normalized A.anchor_scores).sum)

/-! ## Location query (crime_stats_db.py, get_location_stats) -/

/-- One row of the per-month weighted-average frame built inside
`get_location_stats`. -/
structure MonthlyStat where
  month : Int
  risk_score : ℚ
  crime_count : ℚ
  violent_count : ℚ
  property_count : ℚ
  other_count : ℚ
  deriving DecidableEq

/-- The dictionary `get_location_stats` returns (monthly_trend omitted:
the claims concern current_risk and recent_stats). -/
structure LocStats where
  current_risk : ℚ
  recent_total : ℚ
  recent_violent : ℚ
  recent_property : ℚ
  recent_other : ℚ
  deriving DecidableEq

/-- `np.average(values, weights)`: weighted sum over total weight. -/
def wavg (pairs : List (ℚ × ℚ)) : ℚ :=
  (pairs.map (fun p => p.1 * p.2)).sum / (pairs.map (fun p => p.2)).sum

/-- `series.mean()`. -/
def listMean (l : List ℚ) : ℚ := l.sum / (l.length : ℚ)

/-- Insertion step of the stable ascending sort on months. -/
def insertByMonth (x : MonthlyStat) : List MonthlyStat → List MonthlyStat
  | [] => [x]
  | y :: ys =>
    if x.month ≤ y.month then x :: y :: ys else y :: insertByMonth x ys

/-- `sort_values('month')`: stable ascending insertion sort. -/
def sortByMonth (l : List MonthlyStat) : List MonthlyStat :=
  l.foldr insertByMonth []

/-- Last element with a default (`iloc[-1]`; the default is only reached on
an empty frame, where the Python would raise instead - every theorem below
stays inside the nonempty case). -/
def lastD {α : Type} (d : α) : List α → α
  | [] => d
  | [x] => x
  | _ :: x :: xs => lastD d (x :: xs)

/-- All-zero MonthlyStat, the `lastD` default. -/
def monthlyZero : MonthlyStat :=
  { month := 0, risk_score := 0, crime_count := 0, violent_count := 0,
    property_count := 0, other_count := 0 }

/-- The anchors within Euclidean radius of the query point
(`crime_stats_db.py` lines 220-225; the comparison sqrt(d2) <= radius is
embedded as d2 <= radius^2, equivalent for nonnegative radius). -/
def nearbyAnchors (db : Store) (lat lon radius : ℚ) : List Point :=
  db.anchor_points.filter
    (fun a => decide (dist2 a (lat, lon) ≤ radius * radius))

/-- The per-anchor weighted row collection of `get_location_stats`
(`crime_stats_db.py` lines 230-249): normalized inverse-square-distance
weight per nearby anchor, paired with each of that anchor's stats rows. -/
def locationWeighted (db : Store) (lat lon radius : ℚ) : List (StatRow × ℚ) :=
  let nearby := nearbyAnchors db lat lon radius
  let rawW := nearby.map (fun a => invWeight (dist2 a (lat, lon)))
  let weights := rawW.map (fun w => w / rawW.sum)
  ((nearby.zip weights).map (fun aw =>
    (db.stats.filter (fun r =>
      decide (r.latitude = aw.1.1 ∧ r.longitude = aw.1.2))).map
        (fun r => (r, aw.2)))).flatten

/-- The per-month weighted-average frame of `get_location_stats`
(`crime_stats_db.py` lines 251-264). -/
def locationMonthly (db : Store) (lat lon radius : ℚ) : List MonthlyStat :=
  let stats := locationWeighted db lat lon radius
  (uniqueFirst (stats.map (fun rw => rw.1.month))).map (fun m =>
    let md := stats.filter (fun rw => decide (rw.1.month = m))
    { month := m
      risk_score := wavg (md.map (fun rw => (rw.1.risk_score, rw.2)))
      crime_count := wavg (md.map (fun rw => (rw.1.crime_count, rw.2)))
      violent_count := wavg (md.map (fun rw => (rw.1.violent_count, rw.2)))
      property_count := wavg (md.map (fun rw => (rw.1.property_count, rw.2)))
      other_count := wavg (md.map (fun rw => (rw.1.other_count, rw.2))) })

/-- `CrimeStatsDB.get_location_stats` (`crime_stats_db.py` lines 203-277):
none if no anchor lies within the radius; otherwise sort the monthly frame
ascending by month and report the last month's risk as current_risk and the
mean of the last three months' counts as recent_stats. -/
def get_location_stats (db : Store) (lat lon radius : ℚ) : Option LocStats :=
  if (nearbyAnchors db lat lon radius).isEmpty then none
  else
    let sorted := sortByMonth (locationMonthly db lat lon radius)
    let last3 := sorted.drop (sorted.length - 3)
    some
      { current_risk := (lastD monthlyZero sorted).risk_score
        recent_total := listMean (last3.map (fun ms => ms.crime_count))
        recent_violent := listMean (last3.map (fun ms => ms.violent_count))
        recent_property := listMean (last3.map (fun ms => ms.property_count))
        recent_other := listMean (last3.map (fun ms => ms.other_count)) }

/-! ## Persistence (crime_stats_db.py, to_csv / _initialize_db) -/

/-- One row of the flat CSV file.  A numeric cell is held as the integer
mantissa of its decimal text with 17 fractional digits (Python writes floats
as shortest round-tripping decimal text, and every binary64 float has an
exact decimal expansion of at most 17 significant fractional digits in the
value ranges the store holds); the month cell is held as the year and
month-of-year of its first-of-month date text "YYYY-MM-01". -/
structure SavedRow where
  latitude : Int
  longitude : Int
  year : Int
  month_of_year : Int
  risk_score : Int
  crime_count : Int
  violent_count : Int
  property_count : Int
  other_count : Int
  deriving DecidableEq

/-- Serialize one numeric field to its decimal mantissa: defined when the
value has a finite 17-digit decimal expansion (always true of a binary64
float of the store), undefined otherwise. -/
def encodeDec (q : ℚ) : Option Int :=
  if (q * 10 ^ 17).den = 1 then some (q * 10 ^ 17).num else none

/-- Parse a decimal mantissa back to the rational it denotes. -/
def decodeDec (n : Int) : ℚ := (n : ℚ) / 10 ^ 17

/-- Month number to the (year, month-of-year) of its first-of-month date. -/
def monthToDate (m : Int) : Int × Int := (m / 12, m % 12 + 1)

/-- Parse a first-of-month date back to its month number
(`pd.to_datetime` at `crime_stats_db.py` line 39). -/
def dateToMonth (y mo : Int) : Int := y * 12 + (mo - 1)

/-- Serialize one stats row (`to_csv`, `crime_stats_db.py` line 201). -/
def saveRow (r : StatRow) : Option SavedRow := do
  let la ← encodeDec r.latitude
  let lo ← encodeDec r.longitude
  let rs ← encodeDec r.risk_score
  let cc ← encodeDec r.crime_count
  let vc ← encodeDec r.violent_count
  let pc ← encodeDec r.property_count
  let oc ← encodeDec r.other_count
  pure
    { latitude := la, longitude := lo,
      year := (monthToDate r.month).1, month_of_year := (monthToDate r.month).2,
      risk_score := rs, crime_count := cc, violent_count := vc,
      property_count := pc, other_count := oc }

/-- Deserialize one stats row (`pd.read_csv` + `pd.to_datetime`,
`crime_stats_db.py` lines 37-39). -/
def loadRow (s : SavedRow) : StatRow :=
  { latitude := decodeDec s.latitude, longitude := decodeDec s.longitude,
    month := dateToMonth s.year s.month_of_year,
    risk_score := decodeDec s.risk_score,
    crime_count := decodeDec s.crime_count,
    violent_count := decodeDec s.violent_count,
    property_count := decodeDec s.property_count,
    other_count := decodeDec s.other_count }

/-- Serialize the whole stats table. -/
def saveStats : List StatRow → Option (List SavedRow)
  | [] => some []
  | r :: rs =>
    match saveRow r, saveStats rs with
    | some s, some ss => some (s :: ss)
    | _, _ => none

/-- Deserialize the whole stats table. -/
def loadStats (file : List SavedRow) : List StatRow :=
  file.map loadRow

/-! ## Trend aggregator (crime_analysis.py) -/

/-- One row of the CrimeAnalyzer's raw data: latitude, longitude, the
day number of date_of_occurrence, city, and the raw category. -/
structure CrimeRec where
  latitude : ℚ
  longitude : ℚ
  date : Int
  city : String
  nibrs_crime_category : String
  deriving DecidableEq

/-- `astype(int)` on a float: truncation toward zero. -/
def ratTrunc (q : ℚ) : Int := if q < 0 then ⌈q⌉ else ⌊q⌋

/-- The bucketing of `get_hotspots` (`crime_analysis.py` lines 185-186):
`(coordinate / grid_size).astype(int) * grid_size`. -/
def gridCell (grid_size x : ℚ) : ℚ := (ratTrunc (x / grid_size) : ℚ) * grid_size

/-- Modelled from the spec - for comparison with `gridCell` only (claim C8):
the spec says coordinates are floor-divided by the cell size, so the cell
corner would be floor(coordinate / cell_size) * cell_size. -/
def gridCellFloorSpec (grid_size x : ℚ) : ℚ := ((⌊x / grid_size⌋ : Int) : ℚ) * grid_size

/-- One hotspot cell of `get_hotspots`: center coordinates, city, incident
count and the per-category breakdown dictionary. -/
structure HotspotCell where
  center_lat : ℚ
  center_lon : ℚ
  city : String
  incident_count : Nat
  crime_types : String → Nat

/-- `CrimeAnalyzer.get_hotspots` (`crime_analysis.py` lines 151-204, date
filter omitted as the claims pass no date bounds): bucket each record by
truncated division of its coordinates, group by (cell, city), and report
per group the size and the per-category value counts. -/
def get_hotspots (data : List CrimeRec) (grid_size : ℚ) : List HotspotCell :=
  let keyed := data.map (fun o =>
    ((gridCell grid_size o.latitude, gridCell grid_size o.longitude, o.city), o))
  let keys := uniqueFirst (keyed.map (fun ko => ko.1))
  keys.map (fun k =>
    let group := (keyed.filter (fun ko => decide (ko.1 = k))).map (fun ko => ko.2)
    { center_lat := k.1 + grid_size / 2
      center_lon := k.2.1 + grid_size / 2
      city := k.2.2
      incident_count := group.length
      crime_types := fun c =>
        (group.filter (fun o => decide (o.nibrs_crime_category = c))).length })

/-- Insertion step of the ascending sort on day numbers. -/
def insertInt (x : Int) : List Int → List Int
  | [] => [x]
  | y :: ys => if x ≤ y then x :: y :: ys else y :: insertInt x ys

/-- Ascending insertion sort on day numbers (groupby sorts its keys). -/
def sortInts (l : List Int) : List Int := l.foldr insertInt []

/-- The distinct dates of one city's records, ascending - the index of the
city's slice of the `groupby(date, city).size()` series. -/
def cityDates (data : List CrimeRec) (city : String) : List Int :=
  sortInts (uniqueFirst
    ((data.filter (fun o => decide (o.city = city))).map (fun o => o.date)))

/-- One city's daily count series: each present date with the number of that
city's records on it. -/
def cityDailyCounts (data : List CrimeRec) (city : String) : List (Int × Nat) :=
  (cityDates data city).map (fun d =>
    (d, (data.filter (fun o => decide (o.city = city ∧ o.date = d))).length))

/-- `series.rolling(window=w).mean()` with pandas' default min_periods
(= the window size), as written at `crime_analysis.py` line 142: entry i is
the mean of entries i-w+1 .. i when at least w samples have been seen,
NaN (none) during the warm-up. -/
def rollingMean (w : Nat) (xs : List ℚ) : List (Option ℚ) :=
  (List.range xs.length).map (fun i =>
    if i + 1 < w then none
    else some (((xs.take (i + 1)).drop (i + 1 - w)).sum / (w : ℚ)))

/-- Modelled from the spec - for comparison with `rollingMean` only (claim
C9): the rolling mean with min_periods=1 the spec describes (and that
`crime_plot.py` line 61 uses), where each warm-up entry averages however
many samples are available. -/
def rollingMeanSpec (w : Nat) (xs : List ℚ) : List (Option ℚ) :=
  (List.range xs.length).map (fun i =>
    some (((xs.take (i + 1)).drop (i + 1 - w)).sum / (min (i + 1) w : ℚ)))

/-- `CrimeAnalyzer.calculate_moving_average` with by_type=False
(`crime_analysis.py` lines 131-149): per city, the rolling mean of the
daily count series, tagged with city and date. -/
def calculate_moving_average (data : List CrimeRec) (window_days : Nat) :
    List (String × Int × Option ℚ) :=
  let cities := uniqueFirst (data.map (fun o => o.city))
  (cities.map (fun c =>
    let counts := cityDailyCounts data c
    List.zipWith (fun dc m => (c, dc.1, m)) counts
      (rollingMean window_days (counts.map (fun dc => (dc.2 : ℚ)))))).flatten

/-! ## Caller-batch mutation (crime_stats_db.py / data_processing.py) -/

/-- A raw observation row as the fetch layer hands it to the core.  The
derived columns month, days_ago and time_weight do not exist yet (none);
date_of_occurrence is the triple (year, month-of-year, day). -/
structure RawObs where
  latitude : ℚ
  longitude : ℚ
  date_of_occurrence : Int × Int × Int
  nibrs_crime_category : String
  month : Option Int
  days_ago : Option Int
  time_weight : Option ℚ
  deriving DecidableEq

/-- `dt.to_period('M')` on a date triple: its month number. -/
def monthOfDate (d : Int × Int × Int) : Int := d.1 * 12 + (d.2.1 - 1)

/-- The column assignments `update_stats` performs on the caller's
DataFrame object (`crime_stats_db.py` lines 110-114): the month column is
computed and stored on the batch in place.  (Line 119 rebinds the local
name to a filtered copy, so the later category assignment no longer touches
the caller's object.) -/
def update_stats_batch_effect (crime_data : List RawObs) : List RawObs :=
  crime_data.map (fun o => { o with month := some (monthOfDate o.date_of_occurrence) })

/-- The column assignments `calculate_weighted_crime` performs on the
caller's DataFrame (`data_processing.py` lines 109-110): days_ago and
time_weight columns are added in place.  daysAgo abstracts
(Timestamp.now() - date).days and timeWeight abstracts exp(-days/365). -/
def calculate_weighted_crime_batch_effect (daysAgo : Int × Int × Int → Int)
    (timeWeight : Int → ℚ) (df : List RawObs) : List RawObs :=
  df.map (fun o =>
    { o with
      days_ago := some (daysAgo o.date_of_occurrence)
      time_weight := some (timeWeight (daysAgo o.date_of_occurrence)) })

/-- The serialized form of the zero row of month 5: all numeric cells have
mantissa 0 and the month cell is the first of month 6 of year 0. -/
def savedZeroRow5 : SavedRow :=
  { latitude := 0, longitude := 0, year := 0, month_of_year := 6,
    risk_score := 0, crime_count := 0, violent_count := 0,
    property_count := 0, other_count := 0 }

/-- A one-anchor, one-month, all-zero store for the location-query witness. -/
def locdbW : Store :=
  { anchor_points := [((0 : ℚ), (0 : ℚ))],
    stats := [zeroRow ((0 : ℚ), (0 : ℚ)) 0] }

/-- A single-anchor store holding zeroed rows for months 0 through 11
(the shape `_create_empty_db` produces, with a 1-point mesh). -/
def evictionDb : Store :=
  { anchor_points := [((0 : ℚ), (0 : ℚ))],
    stats := (monthRange 0 11).map (fun m => zeroRow ((0 : ℚ), (0 : ℚ)) m) }

/-- A batch holding one observation in month 12: it advances the window's
upper bound one month past the stored history. -/
def evictionBatch : List Obs :=
  [{ latitude := 0, longitude := 0, month := 12,
     nibrs_crime_category := "THEFT" }]

/-- A single-anchor store whose 12 stored months (1 through 12) already
align with `evictionBatch`'s window, so the month-count assert passes. -/
def idemDb : Store :=
  { anchor_points := [((0 : ℚ), (0 : ℚ))],
    stats := (monthRange 1 12).map (fun m => zeroRow ((0 : ℚ), (0 : ℚ)) m) }

/-- A one-record raw batch as handed over by the fetch layer: the derived
columns are absent. -/
def rawBatch : List RawObs :=
  [{ latitude := 0, longitude := 0, date_of_occurrence := (2025, 1, 15),
     nibrs_crime_category := "THEFT", month := none, days_ago := none,
     time_weight := none }]

/-- A crime record with negative coordinates not on a cell boundary
(every DFW longitude is negative, so this is the generic production case). -/
def negRec : CrimeRec :=
  { latitude := -3 / 200, longitude := -3 / 200, date := 0, city := "Dallas",
    nibrs_crime_category := "THEFT" }

/-- A single crime record, giving a one-day daily count series. -/
def maRec : CrimeRec :=
  { latitude := 0, longitude := 0, date := 0, city := "Dallas",
    nibrs_crime_category := "THEFT" }

/-- C1. The claim says update_stats evicts every row whose month falls outside
[latest minus 11, latest], leaving at most 12 distinct months.  The code does
the opposite: the filter at `crime_stats_db.py` lines 129-132 keeps exactly the
rows outside that window.  Feeding a store holding months 0..11 a batch whose
latest month is 12 (its maximum, so latest_month = 12) leaves the stale
month 0 (older than the lower bound 1) in the table alongside the fresh
months 1..12 - thirteen distinct months - and the source's own
`assert month_count <= 12` at line 198 then raises, embedded as
`update_stats` returning none. -/
theorem update_stats_retains_stale_month :
    storeMonths (update_stats_core evictionDb evictionBatch 12) =
      [0, 1, 2, 3, 4, 5, 6, 7, 8, 9, 10, 11, 12] ∧
    update_stats evictionDb evictionBatch = none := by
  constructor <;> decide

/-- C6. The vectorized scorer agrees with the single-point scorer: for every
analyzer state and every list of query points, `get_scores_batch` returns
exactly the scores `get_score` returns point by point, because the batch
form performs the same row-wise arithmetic. -/
theorem get_scores_batch_eq_get_score (A : Analyzer) (points : List Point) :
    get_scores_batch A points = points.map (fun p => get_score A p.1 p.2) :=
  rfl

/-- C3. The claim says a Scorer over zero observations yields all-zero
anchor scores and that a zero normalization divisor is special-cased to a
constant.  The code (`crime_spatial.py` lines 82-84) normalizes with no
guard: over zero observations every raw anchor score is 0, so max = min and
the normalization is 0/0, i.e. NaN for every anchor (none here) - and the
same happens whenever all anchors have identical summed weight, e.g. two
anchors equidistant from the single observation. -/
theorem update_anchor_scores_nan :
    update_anchor_scores [((0 : ℚ), (0 : ℚ))] [] (fun _ => 1) = none ∧
    update_anchor_scores [((0 : ℚ), (0 : ℚ)), ((1 : ℚ), (0 : ℚ))]
      [{ latitude := 1 / 2, longitude := 0, month := 0,
         nibrs_crime_category := "THEFT" }] (fun _ => 1) = none := by
  constructor <;> decide

/-- C10 counterexample. The claim says `update_stats` and
`calculate_weighted_crime` leave the caller's observation batch unchanged.
On a concrete one-record batch, `update_stats` stores a month column on the
caller's DataFrame (`crime_stats_db.py` lines 110-114) and
`calculate_weighted_crime` stores days_ago and time_weight columns
(`data_processing.py` lines 109-110), so both return a batch different from
the one passed in. -/
theorem batch_mutation_counterexample :
    update_stats_batch_effect rawBatch ≠ rawBatch ∧
    calculate_weighted_crime_batch_effect (fun _ => 30) (fun _ => 1) rawBatch
      ≠ rawBatch := by
  constructor <;> decide

/-- C10 amended. Ingested observation batches are not left unchanged:
for every nonempty batch without the derived columns, `update_stats` adds a
month column to the caller's object and `calculate_weighted_crime` adds
days_ago and time_weight columns (CrimeAnalyzer and CrimeSpatialAnalyzer,
by contrast, copy their input at construction and run on the copy). -/
theorem batch_mutation (b : List RawObs) (hne : b ≠ [])
    (hm : ∀ o ∈ b, o.month = none) (hd : ∀ o ∈ b, o.days_ago = none)
    (daysAgo : Int × Int × Int → Int) (timeWeight : Int → ℚ) :
    update_stats_batch_effect b ≠ b ∧
    calculate_weighted_crime_batch_effect daysAgo timeWeight b ≠ b := by
  match b with
  | [] => exact absurd rfl hne
  | o :: rest =>
    constructor
    · intro h
      rw [update_stats_batch_effect, List.map_cons] at h
      have h1 := (List.cons.injEq _ _ _ _).mp h |>.1
      have h2 := congrArg RawObs.month h1
      simp [hm o (List.mem_cons_self o rest)] at h2
    · intro h
      rw [calculate_weighted_crime_batch_effect, List.map_cons] at h
      have h1 := (List.cons.injEq _ _ _ _).mp h |>.1
      have h2 := congrArg RawObs.days_ago h1
      simp [hd o (List.mem_cons_self o rest)] at h2

/-- C10 witness: the amended statement applied at the concrete raw batch. -/
theorem batch_mutation_witness :
    update_stats_batch_effect rawBatch ≠ rawBatch ∧
    calculate_weighted_crime_batch_effect (fun _ => 7) (fun _ => 1 / 2)
      rawBatch ≠ rawBatch :=
  batch_mutation rawBatch (by decide) (by decide) (by decide) _ _

/-- C9 counterexample. The claim says `calculate_moving_average` averages
over however many samples are available during the first window_days - 1
points.  The code calls `rolling(window=window_days)` with pandas' default
min_periods (`crime_analysis.py` line 142), so a one-day series under a
7-day window yields NaN (none) - whereas the described min_periods=1
semantics (`rollingMeanSpec`, as `crime_plot.py` line 61 implements) would
yield the average of the single available sample. -/
theorem moving_average_nan_warmup :
    calculate_moving_average [maRec] 7 = [("Dallas", 0, none)] ∧
    rollingMeanSpec 7 [(1 : ℚ)] = [some 1] := by
  constructor <;> decide

/-- C9 amended. `calculate_moving_average` uses the full-window convention:
entry i of a city's rolling series is NaN (none) while fewer than
window_days samples have been seen, and the mean of the trailing
window_days daily counts afterwards. -/
theorem rolling_mean_full_window (w : Nat) (xs : List ℚ) (i : Nat)
    (hi : i < xs.length) (hw : 1 ≤ w) :
    (rollingMean w xs)[i]? =
      some (if i + 1 < w then none
            else some (((xs.take (i + 1)).drop (i + 1 - w)).sum / (w : ℚ))) := by
  unfold rollingMean
  rw [List.getElem?_map, List.getElem?_range hi]
  rfl

/-- C9 witness: under a 7-day window a 1-point series is still in warm-up,
so the rolling mean is NaN there. -/
theorem rolling_mean_full_window_witness :
    (rollingMean 7 [(4 : ℚ)])[0]? = some none := by
  have h := rolling_mean_full_window 7 [(4 : ℚ)] 0 (by decide) (by decide)
  simpa using h

/-- Every element of a list survives into its `uniqueFirst` image (stated
for the worker: it suffices that the element was not yet emitted). -/
theorem mem_uniqueFromAux {α : Type} [DecidableEq α] (a : α) :
    ∀ (l seen : List α), a ∈ l → a ∉ seen → a ∈ uniqueFromAux seen l := by
  intro l
  induction l with
  | nil => intro seen h _; cases h
  | cons x xs ih =>
    intro seen hmem hseen
    unfold uniqueFromAux
    by_cases hx : x ∈ seen
    · rw [if_pos hx]
      rcases List.mem_cons.mp hmem with rfl | h
      · exact absurd hx hseen
      · exact ih seen h hseen
    · rw [if_neg hx]
      rcases List.mem_cons.mp hmem with rfl | h
      · exact List.mem_cons_self _ _
      · by_cases hax : a = x
        · subst hax; exact List.mem_cons_self _ _
        · refine List.mem_cons_of_mem _ (ih (x :: seen) h ?_)
          intro hc
          rcases List.mem_cons.mp hc with hc | hc
          · exact hax hc
          · exact hseen hc

/-- C8 counterexample. The claim says `get_hotspots` floor-divides
coordinates, for negative coordinates as well.  The code truncates toward
zero (`astype(int)`, `crime_analysis.py` lines 185-186): the record at
latitude -0.015 with cell size 0.01 is bucketed into the cell with corner
-0.01 (center -0.005), while floor division would bucket it into the cell
with corner -0.02. -/
theorem hotspot_truncation_counterexample :
    (get_hotspots [negRec] (1 / 100)).map (fun c => c.center_lat) =
      [-(1 : ℚ) / 200] ∧
    gridCellFloorSpec (1 / 100) (-3 / 200) = -(2 : ℚ) / 100 ∧
    gridCell (1 / 100) (-3 / 200) ≠ gridCellFloorSpec (1 / 100) (-3 / 200) := by
  refine ⟨?_, ?_, ?_⟩ <;> decide

/-- C8 amended. `get_hotspots` buckets each observation by truncating
coordinate / cell_size toward zero (agreeing with floor division only for
nonnegative coordinates), and reports per cell the occurrence count and the
per-category breakdown of the observations whose truncated cells and city
match. -/
theorem hotspot_cells_and_counts (grid_size : ℚ) (hg : 0 < grid_size) :
    (∀ x : ℚ, 0 ≤ x → gridCell grid_size x = gridCellFloorSpec grid_size x) ∧
    (∀ (data : List CrimeRec) (o : CrimeRec), o ∈ data →
      ∃ cell ∈ get_hotspots data grid_size,
        cell.center_lat = gridCell grid_size o.latitude + grid_size / 2 ∧
        cell.center_lon = gridCell grid_size o.longitude + grid_size / 2 ∧
        cell.city = o.city ∧
        cell.incident_count = (data.filter (fun u => decide
          (gridCell grid_size u.latitude = gridCell grid_size o.latitude ∧
           gridCell grid_size u.longitude = gridCell grid_size o.longitude ∧
           u.city = o.city))).length ∧
        ∀ c : String, cell.crime_types c = (data.filter (fun u => decide
          (gridCell grid_size u.latitude = gridCell grid_size o.latitude ∧
           gridCell grid_size u.longitude = gridCell grid_size o.longitude ∧
           u.city = o.city ∧ u.nibrs_crime_category = c))).length) := by
  constructor
  · intro x hx
    unfold gridCell gridCellFloorSpec ratTrunc
    rw [if_neg (not_lt.mpr (div_nonneg hx hg.le))]
  · intro data o ho
    set key := fun u : CrimeRec =>
      (gridCell grid_size u.latitude, gridCell grid_size u.longitude, u.city)
      with hkey
    have hk : key o ∈ uniqueFirst ((data.map (fun u => (key u, u))).map
        (fun ko => ko.1)) := by
      apply mem_uniqueFromAux _ _ [] _ (List.not_mem_nil _)
      rw [List.map_map]
      exact List.mem_map.mpr ⟨o, ho, rfl⟩
    refine ⟨_, List.mem_map.mpr ⟨key o, hk, rfl⟩, rfl, rfl, rfl, ?_, ?_⟩
    · show (((data.map (fun u => (key u, u))).filter
        (fun ko => decide (ko.1 = key o))).map (fun ko => ko.2)).length = _
      rw [List.filter_map, List.map_map, List.length_map]
      congr 1
      apply List.filter_congr
      intro u _
      simp only [Function.comp_apply]
      rw [decide_eq_decide]
      simp only [hkey, Prod.ext_iff]
    · intro c
      show ((((data.map (fun u => (key u, u))).filter
        (fun ko => decide (ko.1 = key o))).map (fun ko => ko.2)).filter
          (fun u => decide (u.nibrs_crime_category = c))).length = _
      rw [List.filter_map, List.filter_filter, List.filter_map, List.map_map,
        List.length_map]
      congr 1
      apply List.filter_congr
      intro u _
      simp only [Function.comp_apply]
      rw [← Bool.decide_and, decide_eq_decide]
      simp only [hkey, Prod.ext_iff]
      tauto

/-- C8 witness: the amended statement applied at cell size 0.01, a
nonnegative coordinate, and the concrete one-record data set. -/
theorem hotspot_cells_and_counts_witness :
    gridCell (1 / 100) (3 / 200) = gridCellFloorSpec (1 / 100) (3 / 200) ∧
    ∃ cell ∈ get_hotspots [negRec] (1 / 100),
      cell.center_lat = gridCell (1 / 100) negRec.latitude + (1 / 100) / 2 ∧
      cell.center_lon = gridCell (1 / 100) negRec.longitude + (1 / 100) / 2 ∧
      cell.city = negRec.city ∧
      cell.incident_count = ([negRec].filter (fun u => decide
        (gridCell (1 / 100) u.latitude = gridCell (1 / 100) negRec.latitude ∧
         gridCell (1 / 100) u.longitude = gridCell (1 / 100) negRec.longitude ∧
         u.city = negRec.city))).length ∧
      ∀ c : String, cell.crime_types c = ([negRec].filter (fun u => decide
        (gridCell (1 / 100) u.latitude = gridCell (1 / 100) negRec.latitude ∧
         gridCell (1 / 100) u.longitude = gridCell (1 / 100) negRec.longitude ∧
         u.city = negRec.city ∧ u.nibrs_crime_category = c))).length :=
  ⟨(hotspot_cells_and_counts (1 / 100) (by norm_num)).1 (3 / 200) (by norm_num),
   (hotspot_cells_and_counts (1 / 100) (by norm_num)).2 [negRec] negRec
     (List.mem_cons_self _ _)⟩

/-- Decoding inverts encoding of a numeric cell. -/
theorem decode_encodeDec (q : ℚ) (n : Int) (h : encodeDec q = some n) :
    decodeDec n = q := by
  unfold encodeDec at h
  by_cases hd : (q * 10 ^ 17).den = 1
  · rw [if_pos hd, Option.some.injEq] at h
    have hq : ((q * 10 ^ 17).num : ℚ) = q * 10 ^ 17 := by
      conv_rhs => rw [← Rat.num_div_den (q * 10 ^ 17)]
      rw [hd]
      simp
    unfold decodeDec
    rw [← h, hq]
    field_simp
  · rw [if_neg hd] at h
    cases h

/-- Parsing a first-of-month date recovers its month number. -/
theorem dateToMonth_monthToDate (m : Int) :
    dateToMonth (monthToDate m).1 (monthToDate m).2 = m := by
  unfold dateToMonth monthToDate
  omega

/-- A row survives one save/load cycle. -/
theorem loadRow_saveRow (r : StatRow) (s : SavedRow) (h : saveRow r = some s) :
    loadRow s = r := by
  obtain ⟨rla, rlo, rm, rrs, rcc, rvc, rpc, roc⟩ := r
  unfold saveRow at h
  obtain ⟨la, h1, h⟩ := Option.bind_eq_some.mp h
  obtain ⟨lo, h2, h⟩ := Option.bind_eq_some.mp h
  obtain ⟨rs, h3, h⟩ := Option.bind_eq_some.mp h
  obtain ⟨cc, h4, h⟩ := Option.bind_eq_some.mp h
  obtain ⟨vc, h5, h⟩ := Option.bind_eq_some.mp h
  obtain ⟨pc, h6, h⟩ := Option.bind_eq_some.mp h
  obtain ⟨oc, h7, h⟩ := Option.bind_eq_some.mp h
  have hs := (Option.some.injEq _ _).mp h
  subst hs
  unfold loadRow
  simp only [StatRow.mk.injEq]
  exact ⟨decode_encodeDec _ _ h1, decode_encodeDec _ _ h2,
    dateToMonth_monthToDate rm,
    decode_encodeDec _ _ h3, decode_encodeDec _ _ h4,
    decode_encodeDec _ _ h5, decode_encodeDec _ _ h6,
    decode_encodeDec _ _ h7⟩

/-- C7. Persistence round-trips: whenever the stats table serializes to the
flat file (every numeric field has a finite 17-digit decimal expansion, as
every binary64 float does), loading the file back reproduces every row
exactly - risk_score and every count field are recovered, and every month
cell deserializes to the same first-of-month date. -/
theorem save_load_round_trip :
    ∀ (rows : List StatRow) (file : List SavedRow),
      saveStats rows = some file → loadStats file = rows := by
  intro rows
  induction rows with
  | nil =>
    intro file h
    unfold saveStats at h
    rw [Option.some.injEq] at h
    rw [← h]
    rfl
  | cons r rs ih =>
    intro file h
    unfold saveStats at h
    cases hr : saveRow r with
    | none => rw [hr] at h; cases h
    | some s =>
      cases hs : saveStats rs with
      | none => rw [hr, hs] at h; cases h
      | some ss =>
        rw [hr, hs, Option.some.injEq] at h
        rw [← h]
        show loadRow s :: loadStats ss = r :: rs
        rw [ih ss hs, loadRow_saveRow r s hr]

/-- C7 witness: the round trip applied to a concrete one-row table
(the zero row of month 5, whose date cell is year 0, month 6). -/
theorem save_load_round_trip_witness :
    loadStats [savedZeroRow5] = [zeroRow ((0 : ℚ), (0 : ℚ)) 5] :=
  save_load_round_trip _ _ (by decide)

/-- Folding min over a list of copies of a is a. -/
theorem foldl_min_const (a : ℚ) :
    ∀ l : List ℚ, (∀ x ∈ l, x = a) → l.foldl min a = a := by
  intro l
  induction l with
  | nil => intro _; rfl
  | cons x xs ih =>
    intro h
    have hx := h x (List.mem_cons_self x xs)
    rw [List.foldl_cons, hx, min_self]
    exact ih (fun y hy => h y (List.mem_cons_of_mem x hy))

/-- Folding max over a list of copies of a is a. -/
theorem foldl_max_const (a : ℚ) :
    ∀ l : List ℚ, (∀ x ∈ l, x = a) → l.foldl max a = a := by
  intro l
  induction l with
  | nil => intro _; rfl
  | cons x xs ih =>
    intro h
    have hx := h x (List.mem_cons_self x xs)
    rw [List.foldl_cons, hx, max_self]
    exact ih (fun y hy => h y (List.mem_cons_of_mem x hy))

/-- C4. The per-month renormalization is guarded (`crime_stats_db.py` line
190): for a month whose rows all carry the same crime_count, `normalizeMonth`
leaves the table - in particular every risk_score - exactly as it was, and
never divides by the zero range (no NaN risk_score).  Moreover, with the
line-198 month-count assert modeled, `update_stats` on a nonempty batch
succeeds exactly when that assert passes: a degenerate month contributes no
failure of its own - the only raising paths are the empty batch and the
window-count violation (claim C1's separate bug), neither caused by the
skipped normalization. -/
theorem normalization_skip_and_success_iff :
    (∀ (stats : List StatRow) (m : Int),
      (∀ r₁ ∈ stats, ∀ r₂ ∈ stats, r₁.month = m → r₂.month = m →
        r₁.crime_count = r₂.crime_count) →
      normalizeMonth m stats = stats) ∧
    (∀ (db : Store) (crime_data : List Obs) (latest : Int),
      listMax (crime_data.map (fun o => o.month)) = some latest →
      (update_stats db crime_data =
          some (update_stats_core db crime_data latest) ↔
        (storeMonths (update_stats_core db crime_data latest)).length ≤ 12)) := by
  constructor
  · intro stats m h
    unfold normalizeMonth
    cases hc : (stats.filter (fun r => decide (r.month = m))).map
        (fun r => r.crime_count) with
    | nil => rfl
    | cons c cs =>
      have hrow : ∀ x ∈ c :: cs, ∃ r ∈ stats, r.month = m ∧ r.crime_count = x := by
        intro x hx
        rw [← hc] at hx
        obtain ⟨r, hrf, hrx⟩ := List.mem_map.mp hx
        have hr := List.mem_filter.mp hrf
        exact ⟨r, hr.1, of_decide_eq_true hr.2, hrx⟩
      obtain ⟨r₀, hr₀, hm₀, hc₀⟩ := hrow c (List.mem_cons_self c cs)
      have hall : ∀ x ∈ cs, x = c := by
        intro x hx
        obtain ⟨r, hr, hm, hcx⟩ := hrow x (List.mem_cons_of_mem c hx)
        rw [← hcx, ← hc₀]
        exact h r hr r₀ hr₀ hm hm₀
      simp only [listMinQ, listMaxQ]
      rw [foldl_min_const c cs hall, foldl_max_const c cs hall,
        if_neg (lt_irrefl c)]
  · intro db crime_data latest hmax
    unfold update_stats
    simp only [hmax, Option.some_bind]
    by_cases hc :
        (storeMonths (update_stats_core db crime_data latest)).length ≤ 12
    · rw [if_pos hc]
      exact iff_of_true rfl hc
    · rw [if_neg hc]
      exact iff_of_false (fun h => Option.noConfusion h) hc

/-- C4 witness: a month whose only row has count zero is left untouched,
and on the window-aligned store the update passes the assert and returns
the processed store. -/
theorem normalization_skip_and_success_iff_witness :
    normalizeMonth 0 [zeroRow ((0 : ℚ), (0 : ℚ)) 0] =
      [zeroRow ((0 : ℚ), (0 : ℚ)) 0] ∧
    update_stats idemDb evictionBatch =
      some (update_stats_core idemDb evictionBatch 12) :=
  ⟨normalization_skip_and_success_iff.1 _ 0 (by decide),
   (normalization_skip_and_success_iff.2 idemDb evictionBatch 12
      (by decide)).mpr (by decide)⟩

/-- Elements of an insertion step come from the inserted element or the
original list. -/
theorem mem_insertByMonth (x y : MonthlyStat) :
    ∀ l, x ∈ insertByMonth y l → x = y ∨ x ∈ l := by
  intro l
  induction l with
  | nil =>
    intro h
    exact Or.inl (List.mem_singleton.mp h)
  | cons z zs ih =>
    intro h
    unfold insertByMonth at h
    by_cases hc : y.month ≤ z.month
    · rw [if_pos hc] at h
      rcases List.mem_cons.mp h with h | h
      · exact Or.inl h
      · exact Or.inr h
    · rw [if_neg hc] at h
      rcases List.mem_cons.mp h with h | h
      · exact Or.inr (List.mem_cons.mpr (Or.inl h))
      · rcases ih h with h | h
        · exact Or.inl h
        · exact Or.inr (List.mem_cons_of_mem z h)

/-- Sorting by month produces no new elements. -/
theorem mem_sortByMonth (x : MonthlyStat) :
    ∀ l, x ∈ sortByMonth l → x ∈ l := by
  intro l
  induction l with
  | nil => intro h; cases h
  | cons y ys ih =>
    intro h
    rcases mem_insertByMonth x y (sortByMonth ys) h with h | h
    · exact List.mem_cons.mpr (Or.inl h)
    · exact List.mem_cons_of_mem y (ih h)

/-- `lastD` returns the default or a list element. -/
theorem lastD_mem_or {α : Type} (d : α) :
    ∀ l : List α, lastD d l = d ∨ lastD d l ∈ l := by
  intro l
  induction l with
  | nil => exact Or.inl rfl
  | cons x xs ih =>
    cases xs with
    | nil => exact Or.inr (List.mem_singleton.mpr rfl)
    | cons y ys =>
      rcases ih with h | h
      · exact Or.inl h
      · exact Or.inr (List.mem_cons_of_mem x h)

/-- A weighted average of zeros is zero. -/
theorem wavg_zero (pairs : List (ℚ × ℚ)) (h : ∀ p ∈ pairs, p.1 = 0) :
    wavg pairs = 0 := by
  have h0 : (pairs.map (fun p => p.1 * p.2)).sum = 0 := by
    apply List.sum_eq_zero
    intro x hx
    obtain ⟨p, hp, hpx⟩ := List.mem_map.mp hx
    rw [← hpx, h p hp, zero_mul]
  unfold wavg
  rw [h0, zero_div]

/-- The mean of a list of zeros is zero. -/
theorem listMean_zero (l : List ℚ) (h : ∀ x ∈ l, x = 0) : listMean l = 0 := by
  unfold listMean
  rw [List.sum_eq_zero h, zero_div]

/-- Every weighted row selected by the location query is a row of the
store. -/
theorem locationWeighted_mem (db : Store) (lat lon radius : ℚ)
    (pr : StatRow × ℚ) (h : pr ∈ locationWeighted db lat lon radius) :
    pr.1 ∈ db.stats := by
  unfold locationWeighted at h
  obtain ⟨l, hl, hpr⟩ := List.mem_flatten.mp h
  obtain ⟨aw, _, hl2⟩ := List.mem_map.mp hl
  rw [← hl2] at hpr
  obtain ⟨r, hr, hr2⟩ := List.mem_map.mp hpr
  rw [← hr2]
  exact (List.mem_filter.mp hr).1

/-- On an all-zero store every monthly aggregate of the location query is
all-zero. -/
theorem locationMonthly_zero (db : Store) (lat lon radius : ℚ)
    (hzero : ∀ r ∈ db.stats, r.risk_score = 0 ∧ r.crime_count = 0 ∧
      r.violent_count = 0 ∧ r.property_count = 0 ∧ r.other_count = 0) :
    ∀ ms ∈ locationMonthly db lat lon radius,
      ms.risk_score = 0 ∧ ms.crime_count = 0 ∧ ms.violent_count = 0 ∧
      ms.property_count = 0 ∧ ms.other_count = 0 := by
  intro ms hms
  unfold locationMonthly at hms
  obtain ⟨m, _, hmk⟩ := List.mem_map.mp hms
  subst hmk
  have key : ∀ (f : StatRow → ℚ), (∀ r ∈ db.stats, f r = 0) →
      wavg (((locationWeighted db lat lon radius).filter
        (fun rw0 => decide (rw0.1.month = m))).map
          (fun rw0 => (f rw0.1, rw0.2))) = 0 := by
    intro f hf
    apply wavg_zero
    intro p hp
    obtain ⟨pr, hpr, hpp⟩ := List.mem_map.mp hp
    rw [← hpp]
    exact hf pr.1 (locationWeighted_mem db lat lon radius pr
      (List.mem_filter.mp hpr).1)
  exact ⟨key _ (fun r hr => (hzero r hr).1),
    key _ (fun r hr => (hzero r hr).2.1),
    key _ (fun r hr => (hzero r hr).2.2.1),
    key _ (fun r hr => (hzero r hr).2.2.2.1),
    key _ (fun r hr => (hzero r hr).2.2.2.2)⟩

/-- C5. `get_location_stats` returns null exactly when no anchor lies within
the query radius - and never raises; on an all-zero (freshly initialized)
complete store with at least one anchor in radius it returns a result whose
current_risk is 0 and whose recent_stats categories are all 0. -/
theorem get_location_stats_null_and_zero (db : Store) (lat lon radius : ℚ)
    (hrad : 0 ≤ radius)
    (hcomplete : ∀ a ∈ db.anchor_points, ∃ r ∈ db.stats,
      r.latitude = a.1 ∧ r.longitude = a.2) :
    (get_location_stats db lat lon radius = none ↔
      ∀ a ∈ db.anchor_points, ¬ dist2 a (lat, lon) ≤ radius * radius) ∧
    ((∀ r ∈ db.stats, r.risk_score = 0 ∧ r.crime_count = 0 ∧
        r.violent_count = 0 ∧ r.property_count = 0 ∧ r.other_count = 0) →
      (∃ a ∈ db.anchor_points, dist2 a (lat, lon) ≤ radius * radius) →
      ∃ res, get_location_stats db lat lon radius = some res ∧
        res.current_risk = 0 ∧ res.recent_total = 0 ∧ res.recent_violent = 0 ∧
        res.recent_property = 0 ∧ res.recent_other = 0) := by
  constructor
  · constructor
    · intro h a ha hwithin
      have hna : a ∈ nearbyAnchors db lat lon radius :=
        List.mem_filter.mpr ⟨ha, decide_eq_true hwithin⟩
      unfold get_location_stats at h
      by_cases hne : (nearbyAnchors db lat lon radius).isEmpty = true
      · cases hnl : nearbyAnchors db lat lon radius with
        | nil => rw [hnl] at hna; cases hna
        | cons b bs => rw [hnl] at hne; cases hne
      · rw [if_neg hne] at h
        exact Option.some_ne_none _ h
    · intro h
      unfold get_location_stats
      have hnil : nearbyAnchors db lat lon radius = [] := by
        unfold nearbyAnchors
        apply List.filter_eq_nil_iff.mpr
        intro a ha
        simpa using h a ha
      rw [hnil]
      rfl
  · intro hzero hex
    obtain ⟨a, ha, hwithin⟩ := hex
    have hna : a ∈ nearbyAnchors db lat lon radius :=
      List.mem_filter.mpr ⟨ha, decide_eq_true hwithin⟩
    have hne : ¬ (nearbyAnchors db lat lon radius).isEmpty = true := by
      cases hnl : nearbyAnchors db lat lon radius with
      | nil => rw [hnl] at hna; cases hna
      | cons b bs => intro hc; cases hc
    unfold get_location_stats
    rw [if_neg hne]
    have hsorted : ∀ ms ∈ sortByMonth (locationMonthly db lat lon radius),
        ms.risk_score = 0 ∧ ms.crime_count = 0 ∧ ms.violent_count = 0 ∧
        ms.property_count = 0 ∧ ms.other_count = 0 :=
      fun ms hms => locationMonthly_zero db lat lon radius hzero ms
        (mem_sortByMonth ms _ hms)
    refine ⟨_, rfl, ?_, ?_, ?_, ?_, ?_⟩
    · rcases lastD_mem_or monthlyZero
        (sortByMonth (locationMonthly db lat lon radius)) with h | h
      · rw [h]; rfl
      · exact (hsorted _ h).1
    · apply listMean_zero
      intro x hx
      obtain ⟨ms, hms, hmsx⟩ := List.mem_map.mp hx
      rw [← hmsx]
      exact (hsorted ms (List.drop_subset _ _ hms)).2.1
    · apply listMean_zero
      intro x hx
      obtain ⟨ms, hms, hmsx⟩ := List.mem_map.mp hx
      rw [← hmsx]
      exact (hsorted ms (List.drop_subset _ _ hms)).2.2.1
    · apply listMean_zero
      intro x hx
      obtain ⟨ms, hms, hmsx⟩ := List.mem_map.mp hx
      rw [← hmsx]
      exact (hsorted ms (List.drop_subset _ _ hms)).2.2.2.1
    · apply listMean_zero
      intro x hx
      obtain ⟨ms, hms, hmsx⟩ := List.mem_map.mp hx
      rw [← hmsx]
      exact (hsorted ms (List.drop_subset _ _ hms)).2.2.2.2

/-- C5 witness: a one-anchor, one-month all-zero store queried at the anchor
with radius 1 returns a non-null result with current_risk 0 and all
recent_stats categories 0. -/
theorem get_location_stats_null_and_zero_witness :
    ∃ res, get_location_stats locdbW 0 0 1 = some res ∧
      res.current_risk = 0 ∧ res.recent_total = 0 ∧ res.recent_violent = 0 ∧
      res.recent_property = 0 ∧ res.recent_other = 0 :=
  (get_location_stats_null_and_zero locdbW 0 0 1
    (by norm_num) (by decide)).2 (by decide) (by decide)

/-- The per-anchor overwrite pass does not change any row's month. -/
theorem setMonthCounts_months (A : List Point) (mc : List Obs) (m : Int)
    (stats : List StatRow) :
    (setMonthCounts A mc m stats).map (fun r => r.month) =
      stats.map (fun r => r.month) := by
  unfold setMonthCounts
  rw [List.map_map]
  apply List.map_congr_left
  intro r _
  by_cases h : r.month = m ∧ (r.latitude, r.longitude) ∈ A
  · simp [h]
  · simp [h]

/-- The per-month renormalization does not change any row's month. -/
theorem normalizeMonth_months (m : Int) (stats : List StatRow) :
    (normalizeMonth m stats).map (fun r => r.month) =
      stats.map (fun r => r.month) := by
  simp only [normalizeMonth]
  split
  · split
    · rw [List.map_map]
      apply List.map_congr_left
      intro r _
      by_cases h : r.month = m
      · simp [h]
      · simp [h]
    · rfl
  · rfl

/-- Folding a month-preserving pass over any month list preserves every
row's month. -/
theorem foldl_months (g : List StatRow → Int → List StatRow)
    (hg : ∀ s m, (g s m).map (fun r => r.month) = s.map (fun r => r.month)) :
    ∀ (ums : List Int) (s : List StatRow),
      (ums.foldl g s).map (fun r => r.month) = s.map (fun r => r.month) := by
  intro ums
  induction ums with
  | nil => intro s; rfl
  | cons m ms ih =>
    intro s
    rw [List.foldl_cons, ih (g s m), hg]

/-- The overwrite pass distributes over appending. -/
theorem setMonthCounts_append (A : List Point) (mc : List Obs) (m : Int)
    (l₁ l₂ : List StatRow) :
    setMonthCounts A mc m (l₁ ++ l₂) =
      setMonthCounts A mc m l₁ ++ setMonthCounts A mc m l₂ :=
  List.map_append _ _ _

/-- The overwrite pass for month m leaves rows of other months alone. -/
theorem setMonthCounts_id (A : List Point) (mc : List Obs) (m : Int)
    (l : List StatRow) (h : ∀ r ∈ l, r.month ≠ m) :
    setMonthCounts A mc m l = l := by
  unfold setMonthCounts
  trans (l.map id)
  · apply List.map_congr_left
    intro r hr
    rw [if_neg (fun hc => h r hr hc.1)]
    rfl
  · exact List.map_id l

/-- The renormalization of month m passes over a prefix holding no rows of
month m: the prefix neither contributes to the min-max nor is rewritten. -/
theorem normalizeMonth_append (m : Int) (l₁ l₂ : List StatRow)
    (h : ∀ r ∈ l₁, r.month ≠ m) :
    normalizeMonth m (l₁ ++ l₂) = l₁ ++ normalizeMonth m l₂ := by
  have hf : (l₁ ++ l₂).filter (fun r => decide (r.month = m)) =
      l₂.filter (fun r => decide (r.month = m)) := by
    rw [List.filter_append, List.filter_eq_nil_iff.mpr, List.nil_append]
    intro r hr
    simpa using h r hr
  simp only [normalizeMonth, hf]
  cases listMinQ ((l₂.filter (fun r => decide (r.month = m))).map
      (fun r => r.crime_count)) with
  | none => rfl
  | some lo =>
    cases listMaxQ ((l₂.filter (fun r => decide (r.month = m))).map
        (fun r => r.crime_count)) with
    | none => rfl
    | some hi =>
      dsimp only
      by_cases hlt : lo < hi
      · rw [if_pos hlt, if_pos hlt, List.map_append]
        congr 1
        trans (l₁.map id)
        · apply List.map_congr_left
          intro r hr
          rw [if_neg (h r hr)]
          rfl
        · exact List.map_id l₁
      · rw [if_neg hlt, if_neg hlt]

/-- Folding the overwrite passes over the batch months skips a prefix whose
months are not among them. -/
theorem foldl_set_append (A : List Point) (cdf : Int → List Obs) :
    ∀ (ums : List Int) (l₁ l₂ : List StatRow),
      (∀ r ∈ l₁, r.month ∉ ums) →
      ums.foldl (fun acc mo => setMonthCounts A (cdf mo) mo acc) (l₁ ++ l₂) =
        l₁ ++ ums.foldl (fun acc mo => setMonthCounts A (cdf mo) mo acc) l₂ := by
  intro ums
  induction ums with
  | nil => intro l₁ l₂ _; rfl
  | cons m ms ih =>
    intro l₁ l₂ h
    rw [List.foldl_cons, List.foldl_cons, setMonthCounts_append,
      setMonthCounts_id A (cdf m) m l₁
        (fun r hr hc => h r hr (hc ▸ List.mem_cons_self m ms))]
    exact ih l₁ _ (fun r hr hmem => h r hr (List.mem_cons_of_mem m hmem))

/-- Folding the renormalization passes over the batch months skips a prefix
whose months are not among them. -/
theorem foldl_norm_append :
    ∀ (ums : List Int) (l₁ l₂ : List StatRow),
      (∀ r ∈ l₁, r.month ∉ ums) →
      ums.foldl (fun acc mo => normalizeMonth mo acc) (l₁ ++ l₂) =
        l₁ ++ ums.foldl (fun acc mo => normalizeMonth mo acc) l₂ := by
  intro ums
  induction ums with
  | nil => intro l₁ l₂ _; rfl
  | cons m ms ih =>
    intro l₁ l₂ h
    rw [List.foldl_cons, List.foldl_cons,
      normalizeMonth_append m l₁ l₂
        (fun r hr hc => h r hr (hc ▸ List.mem_cons_self m ms))]
    exact ih l₁ _ (fun r hr hmem => h r hr (List.mem_cons_of_mem m hmem))

/-- Months produced by `monthRange` lie in the requested interval. -/
theorem mem_monthRange {lo hi m : Int} (h : m ∈ monthRange lo hi) :
    lo ≤ m ∧ m ≤ hi := by
  unfold monthRange at h
  obtain ⟨i, hi2, rfl⟩ := List.mem_map.mp h
  rw [List.mem_range] at hi2
  omega

/-- Every element is bounded by the running foldl maximum. -/
theorem le_foldl_max : ∀ (l : List Int) (a : Int),
    a ≤ l.foldl max a ∧ ∀ x ∈ l, x ≤ l.foldl max a := by
  intro l
  induction l with
  | nil =>
    intro a
    exact ⟨le_refl a, fun x hx => absurd hx (List.not_mem_nil x)⟩
  | cons y ys ih =>
    intro a
    rw [List.foldl_cons]
    constructor
    · exact le_trans (le_max_left a y) (ih (max a y)).1
    · intro x hx
      rcases List.mem_cons.mp hx with heq | hx
      · subst heq
        exact le_trans (le_max_right a x) (ih (max a x)).1
      · exact (ih (max a y)).2 x hx

/-- `series.max()` bounds every element. -/
theorem listMax_le {l : List Int} {mx : Int} (h : listMax l = some mx) :
    ∀ x ∈ l, x ≤ mx := by
  cases l with
  | nil => cases h
  | cons a as =>
    have hmx : mx = as.foldl max a := by
      unfold listMax at h
      exact ((Option.some.injEq _ _).mp h).symm
    subst hmx
    intro x hx
    rcases List.mem_cons.mp hx with rfl | hx
    · exact (le_foldl_max as x).1
    · exact (le_foldl_max as a).2 x hx

/-- Elements of the worker's output come from the input list. -/
theorem uniqueFromAux_subset {α : Type} [DecidableEq α] (a : α) :
    ∀ (l seen : List α), a ∈ uniqueFromAux seen l → a ∈ l := by
  intro l
  induction l with
  | nil => intro seen h; cases h
  | cons x xs ih =>
    intro seen h
    unfold uniqueFromAux at h
    by_cases hx : x ∈ seen
    · rw [if_pos hx] at h
      exact List.mem_cons_of_mem x (ih seen h)
    · rw [if_neg hx] at h
      rcases List.mem_cons.mp h with heq | h
      · exact List.mem_cons.mpr (Or.inl heq)
      · exact List.mem_cons_of_mem x (ih (x :: seen) h)

/-- One update pass is a function of the kept out-of-window rows, the batch
and the anchors only - and it leaves the kept rows in place: running the
same pass again reproduces the same table. -/
theorem update_stats_core_idem (db : Store) (b : List Obs) (latest : Int)
    (hbound : ∀ o ∈ b, o.month ≤ latest) :
    update_stats_core (update_stats_core db b latest) b latest =
      update_stats_core db b latest := by
  obtain ⟨A, S⟩ := db
  simp only [update_stats_core, Store.mk.injEq]
  refine ⟨by trivial, ?_⟩
  set cd := b.filter (fun o => decide (latest - 11 ≤ o.month)) with hcd
  set ums := uniqueFirst (cd.map (fun o => o.month)) with hums
  set months := monthRange (latest - 11) latest with hmonths
  set new1 := (A.map (fun a => months.map (fun mo => zeroRow a mo))).flatten
    with hnew
  set kept1 := S.filter
    (fun r => decide (r.month < latest - 11 ∨ latest < r.month)) with hkept
  have humsBound : ∀ m ∈ ums, latest - 11 ≤ m ∧ m ≤ latest := by
    intro m hm
    have hm2 : m ∈ cd.map (fun o => o.month) := uniqueFromAux_subset _ _ _ hm
    obtain ⟨o, ho, rfl⟩ := List.mem_map.mp hm2
    have ho2 := List.mem_filter.mp ho
    exact ⟨of_decide_eq_true ho2.2, hbound o ho2.1⟩
  have hkeptNotin : ∀ r ∈ kept1, r.month ∉ ums := by
    intro r hr hmem
    rw [hkept] at hr
    have hp0 : decide (r.month < latest - 11 ∨ latest < r.month) = true :=
      @List.of_mem_filter _
        (fun r => decide (r.month < latest - 11 ∨ latest < r.month)) r S hr
    have hp := of_decide_eq_true hp0
    have hb2 := humsBound _ hmem
    rcases hp with hp | hp <;> omega
  have hdecomp :
      ums.foldl (fun acc mo => normalizeMonth mo acc)
        (ums.foldl (fun acc mo => setMonthCounts A
          (cd.filter (fun o => decide (o.month = mo))) mo acc)
          (kept1 ++ new1)) =
      kept1 ++ ums.foldl (fun acc mo => normalizeMonth mo acc)
        (ums.foldl (fun acc mo => setMonthCounts A
          (cd.filter (fun o => decide (o.month = mo))) mo acc) new1) := by
    rw [foldl_set_append A
        (fun mo => cd.filter (fun o => decide (o.month = mo)))
        ums kept1 new1 hkeptNotin,
      foldl_norm_append ums kept1
        (ums.foldl (fun acc mo => setMonthCounts A
          (cd.filter (fun o => decide (o.month = mo))) mo acc) new1)
        hkeptNotin]
  have hTmonths :
      (ums.foldl (fun acc mo => normalizeMonth mo acc)
        (ums.foldl (fun acc mo => setMonthCounts A
          (cd.filter (fun o => decide (o.month = mo))) mo acc) new1)).map
            (fun r => r.month) = new1.map (fun r => r.month) := by
    rw [foldl_months _ (fun s m => normalizeMonth_months m s),
      foldl_months _ (fun s m => setMonthCounts_months A _ m s)]
  have hnewBound : ∀ r ∈ new1, latest - 11 ≤ r.month ∧ r.month ≤ latest := by
    intro r hr
    rw [hnew] at hr
    obtain ⟨l, hl, hrl⟩ := List.mem_flatten.mp hr
    obtain ⟨a, _, rfl⟩ := List.mem_map.mp hl
    obtain ⟨mo, hmo, rfl⟩ := List.mem_map.mp hrl
    have := mem_monthRange (hmonths ▸ hmo)
    simpa [zeroRow] using this
  have hTbound : ∀ r ∈ ums.foldl (fun acc mo => normalizeMonth mo acc)
      (ums.foldl (fun acc mo => setMonthCounts A
        (cd.filter (fun o => decide (o.month = mo))) mo acc) new1),
      latest - 11 ≤ r.month ∧ r.month ≤ latest := by
    intro r hr
    have hmm : r.month ∈ new1.map (fun r => r.month) := by
      rw [← hTmonths]
      exact List.mem_map.mpr ⟨r, hr, rfl⟩
    obtain ⟨r₀, hr₀, hmeq⟩ := List.mem_map.mp hmm
    rw [← hmeq]
    exact hnewBound r₀ hr₀
  have hkept2 :
      (kept1 ++ ums.foldl (fun acc mo => normalizeMonth mo acc)
        (ums.foldl (fun acc mo => setMonthCounts A
          (cd.filter (fun o => decide (o.month = mo))) mo acc) new1)).filter
        (fun r => decide (r.month < latest - 11 ∨ latest < r.month)) =
      kept1 := by
    have h1 : ∀ r ∈ kept1,
        decide (r.month < latest - 11 ∨ latest < r.month) = true := by
      intro r hr
      rw [hkept] at hr
      exact @List.of_mem_filter _
        (fun r => decide (r.month < latest - 11 ∨ latest < r.month)) r S hr
    have h2 : ∀ r ∈ ums.foldl (fun acc mo => normalizeMonth mo acc)
        (ums.foldl (fun acc mo => setMonthCounts A
          (cd.filter (fun o => decide (o.month = mo))) mo acc) new1),
        ¬ decide (r.month < latest - 11 ∨ latest < r.month) = true := by
      intro r hr hdec
      have hd := of_decide_eq_true hdec
      have hb2 := hTbound r hr
      rcases hd with hd | hd <;> omega
    rw [List.filter_append, List.filter_eq_self.mpr h1,
      List.filter_eq_nil_iff.mpr h2, List.append_nil]
  rw [hdecomp, hkept2, hdecomp]

/-- C2. `update_stats` is idempotent: running the same observation batch
twice in a row yields exactly the same store as running it once - the
per-month pass overwrites counts computed afresh from the batch rather than
accumulating onto prior values, and it rebuilds the window rows from zero. -/
theorem update_stats_idempotent (db : Store) (b : List Obs) (s₁ : Store)
    (h : update_stats db b = some s₁) :
    update_stats s₁ b = some s₁ := by
  unfold update_stats at h ⊢
  cases hmax : listMax (b.map (fun o => o.month)) with
  | none => rw [hmax] at h; cases h
  | some latest =>
    rw [hmax] at h
    simp only [Option.some_bind] at h ⊢
    by_cases hc : (storeMonths (update_stats_core db b latest)).length ≤ 12
    · rw [if_pos hc] at h
      have hcore := (Option.some.injEq _ _).mp h
      subst hcore
      have hidem := update_stats_core_idem db b latest
        (fun o ho => listMax_le hmax o.month (List.mem_map.mpr ⟨o, ho, rfl⟩))
      rw [hidem, if_pos hc]
    · rw [if_neg hc] at h
      cases h

/-- C2 witness: the idempotence applied to the concrete window-aligned
single-anchor store and one-observation batch. -/
theorem update_stats_idempotent_witness :
    (update_stats idemDb evictionBatch).bind
      (fun s => update_stats s evictionBatch) =
      update_stats idemDb evictionBatch := by
  have hs : update_stats idemDb evictionBatch =
      some (update_stats_core idemDb evictionBatch 12) := by decide
  rw [hs, Option.some_bind]
  exact update_stats_idempotent idemDb evictionBatch _ hs

end

end DfwDash
